import Mathlib

/-!
# Verification of the metavariable/substitution core and the pretty-printer `best` pass

This file gives a shallow embedding of two parts of the repository:

* the term representation and lazy substitution calculus of the metavariable
  kernel (`kernel/metavar.h` / `kernel/instantiate.h`).  The implementation
  files of this component are not part of the source tree; only the test file
  `src/tests/kernel/metavar.cpp` is.  The definitions below are therefore
  modelled from the specification (sections 3 and 4 of the spec), and every
  normalisation rule is pinned down by the concrete assertions of the test
  file, which are replayed as `example`s further down.

* the `be`/`best` document-layout pass of `src/util/format.cpp`, which is
  present in the source tree and embedded directly.

Design notes for the embedding of terms: the spec models a metavariable as
`Metavar(id, ops)` with `ops` an ordered sequence of pending operations, the
most recently attached operation being applied last when the metavariable is
resolved.  Here the pending-operation list is represented as a chain of
wrapper nodes around a bare `meta id` node — the outermost wrapper is the most
recently attached (hence last applied) operation.  This is the same data, in a
form that makes the head of the list pattern-matchable.  Application is
modelled in curried binary form; the tests only ever compare terms built the
same way, so n-ary flattening plays no role in the claims.
-/

set_option maxHeartbeats 1000000

namespace Metavar

/-- Modelled from the spec: the term data model of section 3.  `var` is a de
Bruijn-indexed bound variable, `cnst` a free constant (names are numerals
here; they are opaque in the spec), `app` a (curried) application, `bind` a
binder (`isPi = false` for function abstraction, `true` for Pi), `meta` a bare
metavariable, and `mlower`/`mlift`/`msubst` are the pending operations
`Lower(start, amount)`, `Lift(start, amount)`, `Subst(position, value)`
attached to the metavariable node they wrap (outermost wrapper = most
recently attached = applied last at resolution). -/
inductive expr where
  | var (i : Nat)
  | cnst (name : Nat)
  | app (f a : expr)
  | bind (isPi : Bool) (name : Nat) (ty body : expr)
  | meta (id : Nat)
  | mlower (s n : Nat) (m : expr)
  | mlift (s n : Nat) (m : expr)
  | msubst (p : Nat) (v : expr) (m : expr)
deriving DecidableEq, Repr

namespace expr

/-- Modelled from the spec: `add_lift(M, s, n)` attaches a pending
`Lift(s, n)` to a metavariable node.  No simplification happens when a lift
is attached (the test file shows lifts stacking on top of existing
operations unchanged). -/
def add_lift (m : expr) (s n : Nat) : expr := mlift s n m

/-- Modelled from the spec: `add_lower(M, s, n)` attaches a pending
`Lower(s, n)`.  Following section 4.2, a lower attached directly on top of a
pending `Lift(s1, n1)` whose range covers the lower's start collapses with
it: equal amounts cancel (`add_lower(add_lift(M, s, n), s, n) = M`), and
differing amounts leave a single lift or lower of the difference.  The
source test asserts `add_lower(add_lift(m1, 1, 1), 2, 1) == m1` and
`add_lower(add_lift(m1, 1, 3), 2, 2) == add_lift(m1, 1, 1)`, which fixes the
collapse condition `s1 ≤ s2 ≤ s1 + n1`. -/
def add_lower : expr → Nat → Nat → expr
  | mlift s1 n1 m, s2, n2 =>
    if s1 ≤ s2 ∧ s2 ≤ s1 + n1 then
      if n2 < n1 then mlift s1 (n1 - n2) m
      else if n2 = n1 then m
      else mlower s1 (n2 - n1) m
    else mlower s2 n2 (mlift s1 n1 m)
  | m, s, n => mlower s n m

/-- Modelled from the spec: `lift_free_vars(term, start, amount)` (section
4.2): every `BoundVar(i)` with `i ≥ start` becomes `BoundVar(i + amount)`,
`start` grows by one under a binder, and a metavariable node (with whatever
pending operations it carries) receives a pending `Lift` instead of being
traversed. -/
def lift_free_vars : expr → Nat → Nat → expr
  | var i, s, n => if s ≤ i then var (i + n) else var i
  | cnst c, _, _ => cnst c
  | app f a, s, n => app (lift_free_vars f s n) (lift_free_vars a s n)
  | bind bp nm ty bo, s, n => bind bp nm (lift_free_vars ty s n) (lift_free_vars bo (s + 1) n)
  | m, s, n => add_lift m s n

/-- Modelled from the spec: the eager counterpart of `Lower(start, amount)`:
every `BoundVar(i)` with `i ≥ start` becomes `BoundVar(i - amount)` (natural
subtraction, indices are unsigned in the source), and a metavariable node
receives a pending `Lower`. -/
def lower_free_vars : expr → Nat → Nat → expr
  | var i, s, n => if s ≤ i then var (i - n) else var i
  | cnst c, _, _ => cnst c
  | app f a, s, n => app (lower_free_vars f s n) (lower_free_vars a s n)
  | bind bp nm ty bo, s, n => bind bp nm (lower_free_vars ty s n) (lower_free_vars bo (s + 1) n)
  | m, s, n => add_lower m s n

/-- Modelled from the spec: `add_subst(M, p, v)` attaches a pending
`Subst(p, v)`.  Per section 4.2 the substitution is pushed inwards past
pending lowers and lifts: past a `Lower(s, n)` with `p < s` the position is
kept and the value's free indices `≥ p` are lifted by the amount; with
`p ≥ s` the position grows by the amount.  Past a `Lift(s, n)` the
substitution commutes when `p < s`, is absorbed (no-op) when `p` lies in the
lifted range `[s, s + n)`, and commutes with position `p - n` when
`p ≥ s + n`.  All the branches are pinned by the assertions of `tst5` and the
resolved values of `tst9`/`tst10` in the source test file. -/
def add_subst : expr → Nat → expr → expr
  | mlower s2 n2 m, p, v =>
    if p < s2 then mlower s2 n2 (add_subst m p (lift_free_vars v p n2))
    else mlower s2 n2 (add_subst m (p + n2) v)
  | mlift s1 n1 m, p, v =>
    if p < s1 then mlift s1 n1 (add_subst m p v)
    else if p < s1 + n1 then mlift s1 n1 m
    else mlift s1 n1 (add_subst m (p - n1) v)
  | m, p, v => msubst p v m

/-- Modelled from the spec: eager capture-avoiding replacement of the free
variable at `p` by `x` (the realisation of a pending `Subst`): under a
binder the position grows by one and the value's free indices are lifted;
a metavariable node receives a pending `Subst`. -/
def subst_free : expr → Nat → expr → expr
  | var i, p, x => if i = p then x else var i
  | cnst c, _, _ => cnst c
  | app f a, p, x => app (subst_free f p x) (subst_free a p x)
  | bind bp nm ty bo, p, x =>
      bind bp nm (subst_free ty p x) (subst_free bo (p + 1) (lift_free_vars x 0 1))
  | m, p, x => add_subst m p x

end expr

open expr

/-- Helper for `instantiate` on a metavariable node: attach one pending
`Subst` per supplied value, positions counted from the current depth `d`.
Each value is pre-lifted by the total number `n` of values so that the
trailing `Lower(d + n, n)` attached afterwards cancels the shift on the
substituted copies (pinned by the resolved values of `tst10`). -/
def addSubsts (d n : Nat) : expr → Nat → List expr → expr
  | m, _, [] => m
  | m, j, v :: rest => addSubsts d n (add_subst m (d + j) (lift_free_vars v 0 n)) (j + 1) rest

/-- Modelled from the spec: the worker of `instantiate(term, values)`
(section 4.2/4.4), carrying the current binder depth `d`.  `BoundVar(d + j)`
for `j < n` becomes the `j`-th value with its free indices lifted by `d`;
`BoundVar(i)` with `i ≥ d + n` is shifted down by `n`; no range check is
performed.  A metavariable node receives the equivalent pending operations:
one `Subst` per value followed by a `Lower(d + n, n)`. -/
def instAux (vs : List expr) : Nat → expr → expr
  | d, var i =>
      if i < d then var i
      else if h : i - d < vs.length then lift_free_vars (vs.get ⟨i - d, h⟩) 0 d
      else var (i - vs.length)
  | _, cnst c => cnst c
  | d, app f a => app (instAux vs d f) (instAux vs d a)
  | d, expr.bind bp nm ty bo => expr.bind bp nm (instAux vs d ty) (instAux vs (d + 1) bo)
  | d, m => add_lower (addSubsts d vs.length m 0 vs) (d + vs.length) vs.length

/-- Modelled from the spec: `instantiate(term, values)` — replaces
`BoundVar(0) … BoundVar(n-1)` (innermost first) by the supplied values. -/
def instantiate (t : expr) (vs : List expr) : expr := instAux vs 0 t

/-- Modelled from the spec: the metavariable environment of section 4.3 —
an id counter, the assignment map, and the type-of map (`type_id` per id). -/
structure metavar_env where
  counter : Nat
  asn : List (Nat × expr)
  tys : List (Nat × Nat)
deriving DecidableEq, Repr

/-- Modelled from the spec: failure kinds of section 7. -/
inductive merr where
  | unknownMetavariable
  | doubleAssignment
  | unassignedMetavariable
deriving DecidableEq, Repr

/-- Modelled from the spec: the two kinds of deferred obligation handed to
the caller-supplied listener.  The listener itself is modelled by returning
the list of obligations emitted by an operation (the opaque `context` token
is omitted: it is threaded through unchanged and never inspected). -/
inductive obl where
  | eqObl (lhs rhs : expr)
  | typeOfEq (t ty : expr)
deriving DecidableEq, Repr

namespace metavar_env

/-- Modelled from the spec: `allocate()` — returns a fresh bare metavariable
node and advances the counter. -/
def mk_metavar (e : metavar_env) : expr × metavar_env :=
  (expr.meta e.counter, { e with counter := e.counter + 1 })

/-- Modelled from the spec: `contains(id)` — the id was issued by this
environment. -/
def contains (e : metavar_env) (id : Nat) : Bool := id < e.counter

/-- Modelled from the spec: `is_assigned(id)`. -/
def is_assigned (e : metavar_env) (id : Nat) : Bool := (e.asn.lookup id).isSome

/-- Modelled from the spec: `assign(id, v)` — fails with
`UnknownMetavariable` for an id not issued here, with `DoubleAssignment` if
already assigned, otherwise records the assignment. -/
def assign (e : metavar_env) (id : Nat) (v : expr) : Except merr metavar_env :=
  if id < e.counter then
    if (e.asn.lookup id).isSome then .error .doubleAssignment
    else .ok { e with asn := (id, v) :: e.asn }
  else .error .unknownMetavariable

/-- Modelled from the spec: `get_assignment(id)` (`get_subst` in the source
test) — fails with `UnassignedMetavariable` if not assigned. -/
def get_assignment (e : metavar_env) (id : Nat) : Except merr expr :=
  if id < e.counter then
    match e.asn.lookup id with
    | some v => .ok v
    | none => .error .unassignedMetavariable
  else .error .unknownMetavariable

/-- Modelled from the spec: `get_type(id, listener)` — if a type id exists,
returns a node wrapping it (no allocation, no obligation); otherwise
allocates a fresh metavariable for the type, records it, and emits exactly
one `TypingObligation`.  The returned node is built from the stable
`type_id`, which is how the source realises the physical-identity caching
contract (spec sections 4.3 and 9). -/
def get_type (e : metavar_env) (id : Nat) : expr × metavar_env × List obl :=
  match e.tys.lookup id with
  | some tid => (expr.meta tid, e, [])
  | none =>
      let tid := e.counter
      (expr.meta tid,
       { e with counter := e.counter + 1, tys := (id, tid) :: e.tys },
       [obl.typeOfEq (expr.meta id) (expr.meta tid)])

end metavar_env

/-- The metavariable id at the root of a (possibly wrapped) metavariable
node, if any. -/
def mroot : expr → Option Nat
  | .meta id => some id
  | .mlower _ _ m => mroot m
  | .mlift _ _ m => mroot m
  | .msubst _ _ m => mroot m
  | _ => none

/-- Whether the metavariable underneath a chain of pending operations is
assigned in `e`. -/
def rootAssigned (e : metavar_env) (m : expr) : Bool :=
  match mroot m with
  | some id => (e.asn.lookup id).isSome
  | none => false

/-- Modelled from the spec: `instantiate_metavars(term, env)` (section 4.4)
— rewrites the term, replacing every assigned metavariable by its value with
the pending operations applied in recorded order via the eager operations;
an unassigned metavariable is returned unchanged with its operations
untouched.  Values stored inside pending `Subst` operations of an assigned
metavariable are resolved as well (they are part of the node). -/
def instantiate_metavars (e : metavar_env) : expr → expr
  | .var i => .var i
  | .cnst c => .cnst c
  | .app f a => .app (instantiate_metavars e f) (instantiate_metavars e a)
  | .bind bp nm ty bo => .bind bp nm (instantiate_metavars e ty) (instantiate_metavars e bo)
  | .meta id =>
      match e.asn.lookup id with
      | some v => v
      | none => .meta id
  | .mlower s n m =>
      if rootAssigned e m then lower_free_vars (instantiate_metavars e m) s n
      else .mlower s n m
  | .mlift s n m =>
      if rootAssigned e m then lift_free_vars (instantiate_metavars e m) s n
      else .mlift s n m
  | .msubst p v m =>
      if rootAssigned e m then subst_free (instantiate_metavars e m) p (instantiate_metavars e v)
      else .msubst p v m

/-! ## Replay of the source test assertions

The assertions of `src/tests/kernel/metavar.cpp` are replayed against the
model; they pin down every normalisation rule used above. -/

/-- Constant `f` of the tests. -/
def fC : expr := cnst 0

/-- Constant `g` of the tests. -/
def gC : expr := cnst 1

/-- Constant `h` of the tests. -/
def hC : expr := cnst 2

/-- Constant `a` of the tests. -/
def aC : expr := cnst 3

/-- Constant `N` of the tests. -/
def nC : expr := cnst 4

/-- Binary application `f(x, y)` in curried form. -/
def ap2 (f x y : expr) : expr := app (app f x) y

/-- Ternary application `f(x, y, z)` in curried form. -/
def ap3 (f x y z : expr) : expr := app (app (app f x) y) z

/-- Quaternary application `f(x, y, z, w)` in curried form. -/
def ap4 (f x y z w : expr) : expr := app (app (app (app f x) y) z) w

-- tst5: the eight asserted algebraic identities of the lazy calculus.
example :
    add_subst (add_lower (meta 0) 2 1) 1 (app fC (var 0)) =
      add_lower (add_subst (meta 0) 1 (app fC (var 0))) 2 1 := by decide

example :
    add_subst (add_lower (meta 0) 2 1) 1 (app fC (var 3)) =
      add_lower (add_subst (meta 0) 1 (app fC (var 4))) 2 1 := by decide

example :
    add_subst (add_lower (meta 0) 2 1) 2 (app fC (var 0)) =
      add_lower (add_subst (meta 0) 3 (app fC (var 0))) 2 1 := by decide

example :
    add_subst (add_lower (add_lower (meta 0) 2 1) 3 1) 3 (app fC (var 0)) =
      add_lower (add_lower (add_subst (meta 0) 5 (app fC (var 0))) 2 1) 3 1 := by decide

example : add_lower (add_lift (meta 0) 1 1) 2 1 = meta 0 := by decide

example : add_lower (add_lift (meta 0) 1 3) 2 2 = add_lift (meta 0) 1 1 := by decide

example :
    add_subst (add_lift (meta 0) 1 1) 0 (app fC (var 0)) =
      add_lift (add_subst (meta 0) 0 (app fC (var 0))) 1 1 := by decide

example :
    add_subst (add_lift (meta 0) 1 1) 1 (app fC (var 0)) = add_lift (meta 0) 1 1 := by decide

-- tst2: pending operations carried over onto a nested unassigned metavariable.
/-- The node `m11 = add_lower(add_subst(m1, 0, f(a, m2)), 1, 1)` of `tst2`. -/
def m11 : expr := add_lower (add_subst (meta 0) 0 (ap2 fC aC (meta 1))) 1 1

/-- The environment of `tst2` after `m1 := f(Var(0))`. -/
def env2a : metavar_env := ⟨2, [(0, app fC (var 0))], []⟩

/-- The environment of `tst2` after additionally `m2 := g(a, Var(1))`. -/
def env2b : metavar_env := ⟨2, [(1, ap2 gC aC (var 1)), (0, app fC (var 0))], []⟩


-- tst3: the two instantiation drivers agree on the body of F = Fun x:T, f(m1, x).
/-- The environment of `tst3`: `m1 := h(Var(0), Var(2))`. -/
def env3 : metavar_env := ⟨1, [(0, ap2 hC (var 0) (var 2))], []⟩

example :
    instantiate_metavars env3 (instantiate (ap2 fC (meta 0) (var 0)) [app gC aC]) =
      ap2 fC (ap2 hC (app gC aC) (var 1)) (app gC aC) := by decide

example :
    instantiate (instantiate_metavars env3 (ap2 fC (meta 0) (var 0))) [app gC aC] =
      instantiate_metavars env3 (instantiate (ap2 fC (meta 0) (var 0)) [app gC aC]) := by
  decide

-- tst6: binder-depth-correct shifting of assigned values under nested binders.
/-- The term `t` of `tst6`. -/
def t6 : expr :=
  ap2 fC (var 0)
    (expr.bind false 0 nC
      (ap3 fC (var 1) (var 0)
        (expr.bind false 0 nC (ap3 fC (var 2) (var 1) (var 0)))))

/-- The environment of `tst6` after `assign(1, Var(2))` (that is, `m2`). -/
def env6a : metavar_env := ⟨2, [(1, var 2)], []⟩

/-- The environment of `tst6` after additionally `assign(0, h(Var(3)))`. -/
def env6b : metavar_env := ⟨2, [(0, app hC (var 3)), (1, var 2)], []⟩

/-- The expected final term of `tst6`. -/
def expected6 : expr :=
  ap2 fC (ap2 gC (app hC (var 3)) (var 2))
    (expr.bind false 0 nC
      (ap3 fC (ap2 gC (app hC (var 4)) (var 3)) (var 0)
        (expr.bind false 0 nC (ap3 fC (ap2 gC (app hC (var 5)) (var 4)) (var 1) (var 0)))))

-- tst7.
example :
    instantiate_metavars (⟨1, [(0, app gC (var 0))], []⟩ : metavar_env)
      (instantiate (ap2 fC (meta 0) (var 0)) [aC]) =
      ap2 fC (app gC aC) aC := by decide

-- tst8.
example :
    instantiate_metavars (⟨1, [(0, ap2 gC (var 0) (var 1))], []⟩ : metavar_env)
      (instantiate (ap3 fC (meta 0) (var 0) (var 2)) [aC]) =
      ap3 fC (ap2 gC aC (var 0)) aC (var 1) := by decide

-- tst9.
example :
    instantiate_metavars (⟨1, [(0, ap2 gC (var 0) (var 1))], []⟩ : metavar_env)
      (instantiate (lift_free_vars (ap3 fC (meta 0) (var 1) (var 2)) 1 2) [aC]) =
      ap3 fC (ap2 gC aC (var 2)) (var 2) (var 3) := by decide

-- tst10.
/-- The term `t` of `tst10`. -/
def t10 : expr :=
  ap2 fC (var 0)
    (expr.bind false 0 nC
      (ap4 fC (var 1) (var 2) (var 0)
        (expr.bind false 0 nC (ap3 fC (var 2) (var 1) (var 0)))))

/-- The environment of `tst10`: `m1 := f(Var(0))`, `m2 := Var(2)`. -/
def env10 : metavar_env := ⟨2, [(1, var 2), (0, app fC (var 0))], []⟩

/-- The expected final term of `tst10`. -/
def expected10 : expr :=
  ap2 fC (app gC (app fC (app hC (var 2))))
    (expr.bind false 0 nC
      (ap4 fC (app gC (app fC (app hC (var 3)))) (app hC (var 3)) (var 0)
        (expr.bind false 0 nC (ap3 fC (app gC (app fC (app hC (var 4)))) (var 1) (var 0)))))

example :
    instantiate_metavars env10
      (instantiate (instantiate t10 [app gC (meta 0)]) [app hC (meta 1)]) =
      expected10 := by decide

end Metavar

namespace Fmt

/-- The format tree of `src/util/format.cpp`: the sexpr encoding used there
tags each node with a `format_kind`; the kinds are `NIL`, `NEST`, `COMPOSE`,
`CHOICE`, `LINE`, `TEXT`, `COLOR_BEGIN`, `COLOR_END`.  `COMPOSE` carries a
list of children, `NEST` an indentation delta and a child, `TEXT` a string
(text payloads that are not strings are printed via their textual form, so a
string suffices for the layout algorithm), and `COLOR_BEGIN` a colour
code. -/
inductive fmt where
  | nil
  | line
  | text (s : String)
  | cbeg (c : Nat)
  | cend
  | compose (l : List fmt)
  | nest (i : Int) (f : fmt)
  | choice (x y : fmt)

namespace fmt

/-- Node-count size of a format tree (used as the termination measure of the
worklist recursions below, mirroring the structural recursion of the
source). -/
def fsize : fmt → Nat
  | nil | line | text _ | cbeg _ | cend => 1
  | compose l => 1 + fsizeList l
  | nest _ f => 1 + fsize f
  | choice x y => 1 + fsize x + fsize y
where
  /-- Total size of a list of format trees. -/
  fsizeList : List fmt → Nat
    | [] => 0
    | f :: t => fsize f + fsizeList t

/-- Total size of a worklist of (indentation, format) pairs. -/
def psize : List (Int × fmt) → Nat
  | [] => 0
  | (_, f) :: t => fsize f + psize t

/-- Total size of a stack of worklists. -/
def rsize : List (List (Int × fmt)) → Nat
  | [] => 0
  | s :: r => psize s + rsize r

/-- Every format tree has at least one node. -/
theorem one_le_fsize : ∀ f : fmt, 1 ≤ fsize f := by
  intro f
  cases f <;> (simp only [fsize]; omega)

mutual

/-- `format::space_upto_line_break(s, r, found)` of `format.cpp`: the width
of `s` followed by the pending worklist `r` up to the first line break;
the returned flag is the `found` out-parameter (`true` when a line break or
the end of the input was reached). -/
def space_upto_line_break : fmt → List (Int × fmt) → Nat × Bool
  | nil, r => space_upto_line_break_list r
  | cbeg _, r => space_upto_line_break_list r
  | cend, r => space_upto_line_break_list r
  | compose l, r => space_upto_compose l r
  | nest _ x, r =>
      match space_upto_line_break x [] with
      | (len, true) => (len, true)
      | (len, false) =>
          match space_upto_line_break_list r with
          | (len2, f2) => (len + len2, f2)
  | text s, r =>
      match space_upto_line_break_list r with
      | (len2, f2) => (s.length + len2, f2)
  | line, _ => (0, true)
  | choice x _, r => space_upto_line_break x r
termination_by s r => 3 * (fsize s + psize r)
decreasing_by
  all_goals simp [fsize, psize]
  all_goals omega

/-- The `COMPOSE` loop of `space_upto_line_break`: children are measured
against an empty continuation until a break is found, then the pending
worklist is appended. -/
def space_upto_compose : List fmt → List (Int × fmt) → Nat × Bool
  | [], r => space_upto_line_break_list r
  | h :: t, r =>
      match space_upto_line_break h [] with
      | (len, true) => (len, true)
      | (len, false) =>
          match space_upto_compose t r with
          | (len2, f2) => (len + len2, f2)
termination_by l r => 3 * (fsize.fsizeList l + psize r) + 2
decreasing_by
  all_goals simp [fsize, psize, fsize.fsizeList]
  all_goals (first
    | omega
    | (have hh := one_le_fsize h
       omega))

/-- `format::space_upto_line_break_list(r, found)` of `format.cpp`. -/
def space_upto_line_break_list : List (Int × fmt) → Nat × Bool
  | [] => (0, true)
  | (_, f) :: t => space_upto_line_break f t
termination_by r => 3 * psize r + 1
decreasing_by
  simp [psize]

end

/-- The run of `i` spaces emitted after a line break (`std::string(i, ' ')`
in the source; a negative indentation yields the empty string). -/
def spacesStr (i : Int) : String := String.mk (List.replicate i.toNat ' ')

/-- The size of a mapped worklist is the size of the underlying list. -/
theorem psize_map (i : Int) (l : List fmt) :
    psize (l.map fun s => (i, s)) = fsize.fsizeList l := by
  induction l with
  | nil => simp [psize, fsize.fsizeList]
  | cons h t ih => simp [psize, fsize.fsizeList, ih]

/-- `format::be(w, k, s, r)` of `format.cpp`: the worklist-based layout
selection.  `s` is the current worklist of (indentation, format) pairs, `r`
the stack of pending worklists.  The `CHOICE` case measures the first
alternative with `space_upto_line_break` and takes it when it fits
(`int d = w - k - len; d >= 0` in the source, written here as
`len ≤ w - k` over the integers); the source passes its worklist stack
where that helper expects a single worklist, which the model renders by
flattening the stack (the choice taken does not affect which node kinds
can appear in the output). -/
def be (w : Nat) : Nat → List (Int × fmt) → List (List (Int × fmt)) → List fmt
  | _, [], [] => []
  | k, [], s :: r => be w k s r
  | k, (_, nil) :: z, r => be w k z r
  | k, (_, cbeg c) :: z, r => cbeg c :: be w k z r
  | k, (_, cend) :: z, r => cend :: be w k z r
  | k, (i, compose l) :: z, r => be w k (l.map fun s => (i, s)) (z :: r)
  | k, (i, nest j x) :: z, r => be w k ((i + j, x) :: z) r
  | k, (_, text s) :: z, r => text s :: be w (k + s.length) z r
  | _, (i, line) :: z, r => line :: text (spacesStr i) :: be w i.toNat z r
  | k, (i, choice x y) :: z, r =>
      if ((space_upto_line_break x r.flatten).1 : Int) ≤ (w : Int) - (k : Int) then
        be w k ((i, x) :: z) r
      else be w k ((i, y) :: z) r
termination_by _k s r => 2 * (psize s + rsize r) + r.length
decreasing_by
  all_goals simp [psize, rsize, psize_map, fsize, fsize.fsizeList]
  all_goals omega

/-- `format::best(w, k, s)` of `format.cpp`. -/
def best (w k : Nat) (f : fmt) : List fmt := be w k [((0 : Int), f)] []

/-- The node kinds that `layout` in `format.cpp` renders without reaching
its `lean_unreachable()` branch: `NIL`, `LINE`, `TEXT`, `COLOR_BEGIN`,
`COLOR_END` — everything except `NEST`, `CHOICE` and `COMPOSE`. -/
def isLayoutAtom : fmt → Bool
  | nil | line | text _ | cbeg _ | cend => true
  | compose _ | nest _ _ | choice _ _ => false

/-- Every element of a worklist layout produced by `be` is a node kind that
`layout` renders directly (helper for the claim about `best`). -/
theorem be_all_atoms (w : Nat) :
    ∀ (k : Nat) (s : List (Int × fmt)) (r : List (List (Int × fmt))),
      ((be w k s r).all isLayoutAtom) = true := by
  intro k s r
  induction k, s, r using be.induct w with
  | case1 => simp [be]
  | case2 k s r ih => simpa [be] using ih
  | case3 k i z r ih => simpa [be] using ih
  | case4 k c i z r ih => simpa [be, isLayoutAtom] using ih
  | case5 k i z r ih => simpa [be, isLayoutAtom] using ih
  | case6 k i l z r ih => simpa [be] using ih
  | case7 k i j x z r ih => simpa [be] using ih
  | case8 k s' i z r ih => simpa [be, isLayoutAtom] using ih
  | case9 k i z r ih => simpa [be, isLayoutAtom] using ih
  | case10 k i x y z r h ih =>
      simpa [be, h] using ih
  | case11 k i x y z r h ih =>
      simpa [be, h] using ih


end fmt

end Fmt

/-! ## Claim theorems -/

namespace Metavar

open expr

/-- C1 (counterexample): the spec's commutation law
`add_subst(add_lower(M, s, n), p, v) = add_lower(add_subst(M, p + n, v), s, n)`
for `p < s` fails at `M = m1`, `s = 2`, `n = 1`, `p = 1`, `v = f(Var(0))`:
the substitution keeps position `p`, it is not re-expressed at `p + n`, and
the lower is re-emitted at start `s`, not `s + n`.  All three readings of the
claimed right-hand side (position `p + n` with the lower at `s`, position
`p + n` with the lower at `s + n`, and position `p` with the lower at
`s + n`) differ from the actual result. -/
theorem c1_subst_lower_counterexample :
    add_subst (add_lower (meta 0) 2 1) 1 (app fC (var 0)) ≠
      add_lower (add_subst (meta 0) 2 (app fC (var 0))) 2 1 ∧
    add_subst (add_lower (meta 0) 2 1) 1 (app fC (var 0)) ≠
      add_lower (add_subst (meta 0) 2 (app fC (var 0))) 3 1 ∧
    add_subst (add_lower (meta 0) 2 1) 1 (app fC (var 0)) ≠
      add_lower (add_subst (meta 0) 1 (app fC (var 0))) 3 1 := by
  refine ⟨by decide, by decide, by decide⟩

/-- C1 (amended): for a bare metavariable `M` and `p < s`, a substitution on
a lowered node commutes inward keeping its position, with the value's free
indices `≥ p` lifted by the lower's amount, and the lower re-emitted
unchanged: `add_subst(add_lower(M, s, n), p, v) =
add_lower(add_subst(M, p, lift_free_vars(v, p, n)), s, n)`. -/
theorem c1_subst_lower_commute (id s n p : Nat) (v : expr) (h : p < s) :
    add_subst (add_lower (meta id) s n) p v =
      add_lower (add_subst (meta id) p (lift_free_vars v p n)) s n := by
  simp [add_subst, add_lower, h]

/-- C1 (witness): the amended law at the instance of the source test
(`s = 2`, `n = 1`, `p = 1`, `v = f(Var(3))`, where the lift of the value is
visible). -/
theorem c1_subst_lower_commute_witness :
    (1 : Nat) < 2 ∧
    add_subst (add_lower (meta 0) 2 1) 1 (app fC (var 3)) =
      add_lower (add_subst (meta 0) 1 (lift_free_vars (app fC (var 3)) 1 1)) 2 1 :=
  ⟨by decide, c1_subst_lower_commute 0 2 1 1 (app fC (var 3)) (by decide)⟩

/-- C3 (counterexample): with the assignments exactly as the claim states
them — `m1 := Var(2)` first, then `m2 := h(Var(3))` (`m1` being the first
allocated metavariable, id 0, and `m2` the second, id 1) — the two
instantiation passes do not produce the claimed result term.  The source
test assigns id 1 (that is, `m2`) the value `Var(2)` and id 0 (`m1`) the
value `h(Var(3))`. -/
theorem c3_scenario_counterexample :
    instantiate_metavars (⟨2, [(1, app hC (var 3)), (0, var 2)], []⟩ : metavar_env)
      (instantiate_metavars (⟨2, [(0, var 2)], []⟩ : metavar_env)
        (instantiate t6 [ap2 gC (meta 0) (meta 1)])) ≠
      expected6 := by decide

/-- C3 (amended): in the multi-step scenario of `tst6` — allocate `m1`
(id 0) and `m2` (id 1), build
`t = f(Var(0), Fun(x:N, f(Var(1), x, Fun(y:N, f(Var(2), x, y)))))`,
instantiate `t` with `g(m1, m2)` for `Var(0)`, assign `m2 := Var(2)` and
then `m1 := h(Var(3))` — after both `instantiate_metavars` passes the
result equals
`f(g(h(Var(3)),Var(2)), Fun(x:N, f(g(h(Var(4)),Var(3)), x, Fun(y:N, f(g(h(Var(5)),Var(4)), x, y)))))`,
the assigned values' free indices being shifted by the binder depth of each
occurrence. -/
theorem c3_scenario_nested_binders :
    instantiate_metavars env6b
      (instantiate_metavars env6a (instantiate t6 [ap2 gC (meta 0) (meta 1)])) =
      expected6 := by decide

/-- C4: for an allocated, unassigned, untyped metavariable id, the first
`get_type` call allocates exactly one fresh metavariable (the type) and
emits exactly one `TypingObligation`; every later call returns the very
same node built from the cached type id — the model's rendering of the
source's physical-identity (`is_eqp`) contract — with no new allocation and
no new obligation (the environment reached after the first call is a fixed
point of `get_type`, so the statement covers any number of later calls). -/
theorem c4_get_type_cached (e : metavar_env) (id : Nat)
    (_h1 : id < e.counter) (_h2 : e.asn.lookup id = none) (h3 : e.tys.lookup id = none) :
    (e.get_type id).2.2 = [obl.typeOfEq (meta id) (e.get_type id).1] ∧
    (e.get_type id).2.1.counter = e.counter + 1 ∧
    (e.get_type id).2.1.get_type id = ((e.get_type id).1, (e.get_type id).2.1, ([] : List obl)) := by
  simp [metavar_env.get_type, h3, List.lookup]

/-- C4 (witness): the caching contract at a concrete one-metavariable
environment. -/
theorem c4_get_type_cached_witness :
    ((⟨1, [], []⟩ : metavar_env).get_type 0).2.2 =
      [obl.typeOfEq (meta 0) ((⟨1, [], []⟩ : metavar_env).get_type 0).1] ∧
    ((⟨1, [], []⟩ : metavar_env).get_type 0).2.1.counter = 2 ∧
    ((⟨1, [], []⟩ : metavar_env).get_type 0).2.1.get_type 0 =
      (((⟨1, [], []⟩ : metavar_env).get_type 0).1,
       ((⟨1, [], []⟩ : metavar_env).get_type 0).2.1, ([] : List obl)) :=
  c4_get_type_cached ⟨1, [], []⟩ 0 (by decide) (by decide) (by decide)

/-- C5: attaching a `Lift(s, n₁)` and then a `Lower(s, n₂)` at the same
start collapses: with equal amounts it is the identity on the node; with
`n₂ < n₁` it leaves a single lift of the difference; with `n₁ < n₂` (stated
on a bare metavariable) it leaves a single lower of the difference. -/
theorem c5_lift_lower_identity (M : expr) (id s n₁ n₂ : Nat) :
    (n₂ = n₁ → add_lower (add_lift M s n₁) s n₂ = M) ∧
    (n₂ < n₁ → add_lower (add_lift M s n₁) s n₂ = add_lift M s (n₁ - n₂)) ∧
    (n₁ < n₂ → add_lower (add_lift (meta id) s n₁) s n₂ = add_lower (meta id) s (n₂ - n₁)) := by
  refine ⟨fun h => ?_, fun h => ?_, fun h => ?_⟩
  · simp [add_lift, add_lower, h, Nat.le_add_right]
  · simp [add_lift, add_lower, h, Nat.le_add_right]
  · simp [add_lift, add_lower, Nat.le_add_right, Nat.lt_irrefl, Nat.not_lt_of_lt h,
      Nat.ne_of_gt h]

/-- C5 (witness): the three collapse shapes at concrete amounts
(`add_lower(add_lift(M,2,3),2,3) = M`, lift of the difference for `3/1`,
lower of the difference for `1/3`). -/
theorem c5_lift_lower_identity_witness :
    add_lower (add_lift (meta 0) 2 3) 2 3 = meta 0 ∧
    add_lower (add_lift (meta 0) 2 3) 2 1 = add_lift (meta 0) 2 2 ∧
    add_lower (add_lift (meta 0) 2 1) 2 3 = add_lower (meta 0) 2 2 :=
  ⟨(c5_lift_lower_identity (meta 0) 0 2 3 3).1 (by decide),
   (c5_lift_lower_identity (meta 0) 0 2 3 1).2.1 (by decide),
   (c5_lift_lower_identity (meta 0) 0 2 1 3).2.2 (by decide)⟩

/-- C6: on a lifted node `add_lift(M, s, n)`, a substitution at position
`p < s` commutes with the lift (`add_subst(add_lift(M, s, n), p, v) =
add_lift(add_subst(M, p, v), s, n)`), and a substitution at a position in
the lifted range `[s, s + n)` is absorbed, returning the lifted node
unchanged. -/
theorem c6_subst_lift_commute_absorb (M v : expr) (s n p : Nat) :
    (p < s → add_subst (add_lift M s n) p v = add_lift (add_subst M p v) s n) ∧
    (s ≤ p → p < s + n → add_subst (add_lift M s n) p v = add_lift M s n) := by
  constructor
  · intro h
    simp [add_subst, add_lift, h]
  · intro h1 h2
    simp [add_subst, add_lift, Nat.not_lt_of_le h1, h2]

/-- C6 (witness): the two behaviours at the instances of the source test
(`add_subst(add_lift(m1,1,1),0,f(Var(0)))` commutes,
`add_subst(add_lift(m1,1,1),1,f(Var(0)))` is absorbed). -/
theorem c6_subst_lift_commute_absorb_witness :
    add_subst (add_lift (meta 0) 1 1) 0 (app fC (var 0)) =
      add_lift (add_subst (meta 0) 0 (app fC (var 0))) 1 1 ∧
    add_subst (add_lift (meta 0) 1 1) 1 (app fC (var 0)) = add_lift (meta 0) 1 1 :=
  ⟨(c6_subst_lift_commute_absorb (meta 0) (app fC (var 0)) 1 1 0).1 (by decide),
   (c6_subst_lift_commute_absorb (meta 0) (app fC (var 0)) 1 1 1).2 (by decide) (by decide)⟩

/-- C7: after a successful `assign(id, v)`, `get_assignment(id)` returns
`v`; a second `assign` on the same id fails with `DoubleAssignment` (and,
the failing call returning no environment, the original assignment is still
in place). -/
theorem c7_assign_once (e env' : metavar_env) (id : Nat) (v w : expr)
    (h1 : id < e.counter) (h2 : e.asn.lookup id = none)
    (h3 : e.assign id v = .ok env') :
    env'.get_assignment id = .ok v ∧
    env'.assign id w = .error merr.doubleAssignment := by
  simp [metavar_env.assign, h1, h2] at h3
  subst h3
  constructor
  · simp [metavar_env.get_assignment, h1, List.lookup]
  · simp [metavar_env.assign, h1, List.lookup]

/-- C7 (witness): assign-then-read and double-assignment rejection at a
concrete environment. -/
theorem c7_assign_once_witness :
    (⟨1, [(0, aC)], []⟩ : metavar_env).get_assignment 0 = .ok aC ∧
    (⟨1, [(0, aC)], []⟩ : metavar_env).assign 0 fC = .error merr.doubleAssignment :=
  c7_assign_once ⟨1, [], []⟩ ⟨1, [(0, aC)], []⟩ 0 aC fC (by decide) (by decide) rfl

/-- C9: pending operations of an outer metavariable are pushed onto an
inner unassigned metavariable rather than dropped: with
`m11 = add_lower(add_subst(m1, 0, f(a, m2)), 1, 1)` and `m1 := f(Var(0))`,
`instantiate_metavars` yields `f(f(a, add_lower(m2, 1, 1)))`; once
`m2 := g(a, Var(1))` is also assigned, a later pass resolves the carried
operations consistently, giving
`instantiate_metavars(h(m11)) = h(f(f(a, g(a, Var(0)))))`. -/
theorem c9_pending_ops_carried :
    instantiate_metavars env2a m11 =
      app fC (ap2 fC aC (add_lower (meta 1) 1 1)) ∧
    instantiate_metavars env2b (app hC m11) =
      app hC (app fC (ap2 fC aC (ap2 gC aC (var 0)))) := by
  refine ⟨by decide, by decide⟩

end Metavar

namespace Metavar

open expr

/-- A tower of `k` function binders (bound type `N`) around a body, used to
state the `instantiate` contract at an arbitrary binder depth. -/
def nestB : Nat → expr → expr
  | 0, t => t
  | k + 1, t => expr.bind false 0 nC (nestB k t)

/-- `instAux` descends through a binder tower, increasing the depth once per
binder. -/
theorem instAux_nestB (vs : List expr) :
    ∀ (k d i : Nat), instAux vs d (nestB k (var i)) = nestB k (instAux vs (d + k) (var i)) := by
  intro k
  induction k with
  | zero => intro d i; simp [nestB]
  | succ k ih =>
      intro d i
      have harith : d + 1 + k = d + (k + 1) := by omega
      simp [nestB, instAux, nC, ih, harith]

/-- C8: `instantiate(t, values)` with `n` values, applied under `k` binders,
replaces `BoundVar(k) … BoundVar(k + n - 1)` (innermost first) by the
supplied values with each value's free indices lifted by the binder depth
`k` at the point of substitution, and rewrites every other free
`BoundVar(i)`, `i ≥ k + n`, to `BoundVar(i - n)` with no range check;
variables bound by the binders themselves (`i < k`) are untouched. -/
theorem c8_instantiate_contract (k i : Nat) (vs : List expr) :
    instantiate (nestB k (var i)) vs =
      nestB k
        (if i < k then var i
         else if h : i - k < vs.length then lift_free_vars (vs.get ⟨i - k, h⟩) 0 k
         else var (i - vs.length)) := by
  unfold instantiate
  rw [instAux_nestB]
  simp [instAux]

end Metavar

namespace Metavar

open expr

/-- A term is ground below cutoff `c` when it contains no metavariable node
and every de Bruijn index is bound within the term relative to `c` (for
`c = 0`: a closed, metavariable-free term). -/
def ground : Nat → expr → Bool
  | c, .var i => decide (i < c)
  | _, .cnst _ => true
  | c, .app f a => ground c f && ground c a
  | c, .bind _ _ ty bo => ground c ty && ground (c + 1) bo
  | _, _ => false

/-- Whether a node is a (possibly operation-wrapped) metavariable node. -/
def isMvarNode : expr → Bool
  | .meta _ => true
  | .mlower _ _ _ => true
  | .mlift _ _ _ => true
  | .msubst _ _ _ => true
  | _ => false

/-- Whether the node underneath a chain of pending operations is a
metavariable that is unassigned in `e`. -/
def rootUnassignedNode (e : metavar_env) (m : expr) : Bool :=
  match mroot m with
  | some id => (e.asn.lookup id).isNone
  | none => false

/-- Every metavariable of `t` that is assigned in `e` occurs bare: a node
wrapped in pending operations always sits on top of a metavariable that is
unassigned in `e`. -/
def assignedMetavarsBare (e : metavar_env) : expr → Bool
  | .var _ => true
  | .cnst _ => true
  | .app f a => assignedMetavarsBare e f && assignedMetavarsBare e a
  | .bind _ _ ty bo => assignedMetavarsBare e ty && assignedMetavarsBare e bo
  | .meta _ => true
  | .mlower _ _ m => rootUnassignedNode e m
  | .mlift _ _ m => rootUnassignedNode e m
  | .msubst _ _ m => rootUnassignedNode e m

/-- Lifting does not change a term that is ground below the lift's start. -/
theorem lift_free_vars_ground :
    ∀ (u : expr) (c s n : Nat), ground c u = true → c ≤ s → lift_free_vars u s n = u := by
  intro u
  induction u with
  | var i => intro c s n hg hcs; simp [ground] at hg; simp [lift_free_vars]; omega
  | cnst _ => intro c s n _ _; simp [lift_free_vars]
  | app f a ihf iha =>
      intro c s n hg hcs
      simp [ground] at hg
      simp [lift_free_vars, ihf c s n hg.1 hcs, iha c s n hg.2 hcs]
  | bind bp nm ty bo ihty ihbo =>
      intro c s n hg hcs
      simp [ground] at hg
      simp [lift_free_vars, ihty c s n hg.1 hcs,
        ihbo (c + 1) (s + 1) n hg.2 (by omega)]
  | meta _ => intro c s n hg _; simp [ground] at hg
  | mlower _ _ _ _ => intro c s n hg _; simp [ground] at hg
  | mlift _ _ _ _ => intro c s n hg _; simp [ground] at hg
  | msubst _ _ _ _ _ => intro c s n hg _; simp [ground] at hg

/-- Lowering does not change a term that is ground below the lower's
start. -/
theorem lower_free_vars_ground :
    ∀ (u : expr) (c s n : Nat), ground c u = true → c ≤ s → lower_free_vars u s n = u := by
  intro u
  induction u with
  | var i => intro c s n hg hcs; simp [ground] at hg; simp [lower_free_vars]; omega
  | cnst _ => intro c s n _ _; simp [lower_free_vars]
  | app f a ihf iha =>
      intro c s n hg hcs
      simp [ground] at hg
      simp [lower_free_vars, ihf c s n hg.1 hcs, iha c s n hg.2 hcs]
  | bind bp nm ty bo ihty ihbo =>
      intro c s n hg hcs
      simp [ground] at hg
      simp [lower_free_vars, ihty c s n hg.1 hcs,
        ihbo (c + 1) (s + 1) n hg.2 (by omega)]
  | meta _ => intro c s n hg _; simp [ground] at hg
  | mlower _ _ _ _ => intro c s n hg _; simp [ground] at hg
  | mlift _ _ _ _ => intro c s n hg _; simp [ground] at hg
  | msubst _ _ _ _ _ => intro c s n hg _; simp [ground] at hg

/-- Substitution at a position at or above the cutoff does not change a
ground term. -/
theorem subst_free_ground :
    ∀ (u : expr) (c p : Nat) (x : expr), ground c u = true → c ≤ p → subst_free u p x = u := by
  intro u
  induction u with
  | var i => intro c p x hg hcp; simp [ground] at hg; simp [subst_free]; omega
  | cnst _ => intro c p x _ _; simp [subst_free]
  | app f a ihf iha =>
      intro c p x hg hcp
      simp [ground] at hg
      simp [subst_free, ihf c p x hg.1 hcp, iha c p x hg.2 hcp]
  | bind bp nm ty bo ihty ihbo =>
      intro c p x hg hcp
      simp [ground] at hg
      simp [subst_free, ihty c p x hg.1 hcp,
        ihbo (c + 1) (p + 1) (lift_free_vars x 0 1) hg.2 (by omega)]
  | meta _ => intro c p x hg _; simp [ground] at hg
  | mlower _ _ _ _ => intro c p x hg _; simp [ground] at hg
  | mlift _ _ _ _ => intro c p x hg _; simp [ground] at hg
  | msubst _ _ _ _ _ => intro c p x hg _; simp [ground] at hg

/-- `instantiate_metavars` does not change a ground term. -/
theorem instantiate_metavars_ground (e : metavar_env) :
    ∀ (u : expr) (c : Nat), ground c u = true → instantiate_metavars e u = u := by
  intro u
  induction u with
  | var i => intro c _; simp [instantiate_metavars]
  | cnst _ => intro c _; simp [instantiate_metavars]
  | app f a ihf iha =>
      intro c hg
      simp [ground] at hg
      simp [instantiate_metavars, ihf c hg.1, iha c hg.2]
  | bind bp nm ty bo ihty ihbo =>
      intro c hg
      simp [ground] at hg
      simp [instantiate_metavars, ihty c hg.1, ihbo (c + 1) hg.2]
  | meta _ => intro c hg; simp [ground] at hg
  | mlower _ _ _ _ => intro c hg; simp [ground] at hg
  | mlift _ _ _ _ => intro c hg; simp [ground] at hg
  | msubst _ _ _ _ _ => intro c hg; simp [ground] at hg

end Metavar

namespace Metavar

open expr

/-- Attaching a pending substitution never changes the metavariable at the
root of a node. -/
theorem mroot_add_subst : ∀ (m : expr) (p : Nat) (v : expr), mroot (add_subst m p v) = mroot m := by
  intro m
  induction m with
  | mlower s2 n2 m ih =>
      intro p v
      by_cases h : p < s2 <;> simp [add_subst, h, mroot, ih]
  | mlift s1 n1 m ih =>
      intro p v
      by_cases h1 : p < s1
      · simp [add_subst, h1, mroot, ih]
      · by_cases h2 : p < s1 + n1 <;> simp [add_subst, h1, h2, mroot, ih]
  | var i => intro p v; simp [add_subst, mroot]
  | cnst c => intro p v; simp [add_subst, mroot]
  | app f a _ _ => intro p v; simp [add_subst, mroot]
  | bind bp nm ty bo _ _ => intro p v; simp [add_subst, mroot]
  | meta id => intro p v; simp [add_subst, mroot]
  | msubst q w m _ _ => intro p v; simp [add_subst, mroot]

/-- Attaching a pending lower never changes the metavariable at the root of
a node. -/
theorem mroot_add_lower : ∀ (m : expr) (s n : Nat), mroot (add_lower m s n) = mroot m := by
  intro m
  cases m with
  | mlift s1 n1 m =>
      intro s n
      by_cases h1 : s1 ≤ s ∧ s ≤ s1 + n1
      · by_cases h2 : n < n1
        · simp [add_lower, h1, h2, mroot]
        · by_cases h3 : n = n1 <;> simp [add_lower, h1, h2, h3, mroot]
      · simp [add_lower, h1, mroot]
  | var i => intro s n; simp [add_lower, mroot]
  | cnst c => intro s n; simp [add_lower, mroot]
  | app f a => intro s n; simp [add_lower, mroot]
  | bind bp nm ty bo => intro s n; simp [add_lower, mroot]
  | meta id => intro s n; simp [add_lower, mroot]
  | mlower s2 n2 m => intro s n; simp [add_lower, mroot]
  | msubst q w m => intro s n; simp [add_lower, mroot]

/-- `add_subst` always returns an operation-wrapped metavariable node. -/
theorem isMvarNode_add_subst :
    ∀ (m : expr) (p : Nat) (v : expr), isMvarNode (add_subst m p v) = true := by
  intro m
  induction m with
  | mlower s2 n2 m ih =>
      intro p v
      by_cases h : p < s2 <;> simp [add_subst, h, isMvarNode]
  | mlift s1 n1 m ih =>
      intro p v
      by_cases h1 : p < s1
      · simp [add_subst, h1, isMvarNode]
      · by_cases h2 : p < s1 + n1 <;> simp [add_subst, h1, h2, isMvarNode]
  | var i => intro p v; simp [add_subst, isMvarNode]
  | cnst c => intro p v; simp [add_subst, isMvarNode]
  | app f a _ _ => intro p v; simp [add_subst, isMvarNode]
  | bind bp nm ty bo _ _ => intro p v; simp [add_subst, isMvarNode]
  | meta id => intro p v; simp [add_subst, isMvarNode]
  | msubst q w m _ _ => intro p v; simp [add_subst, isMvarNode]

/-- On an operation-wrapped metavariable node the eager lower just attaches
a pending lower. -/
theorem lower_free_vars_mvar (y : expr) (hy : isMvarNode y = true) (s n : Nat) :
    lower_free_vars y s n = add_lower y s n := by
  cases y <;> simp [isMvarNode] at hy <;> simp [lower_free_vars]

/-- On an operation-wrapped metavariable node the eager substitution just
attaches a pending substitution. -/
theorem subst_free_mvar (y : expr) (hy : isMvarNode y = true) (p : Nat) (x : expr) :
    subst_free y p x = add_subst y p x := by
  cases y <;> simp [isMvarNode] at hy <;> simp [subst_free]

/-- `instAux` on an operation-wrapped metavariable node attaches the
pending substitutions and the trailing lower. -/
theorem instAux_mvar (vs : List expr) (d : Nat) (y : expr) (hy : isMvarNode y = true) :
    instAux vs d y = add_lower (addSubsts d vs.length y 0 vs) (d + vs.length) vs.length := by
  cases y <;> simp [isMvarNode] at hy <;> simp [instAux]

end Metavar

namespace Metavar

open expr

/-- With a single closed metavariable-free value, `instAux` coincides with
the eager substitution at the current depth followed by the eager lower that
removes the consumed binder. -/
theorem instAux_ground_val (u : expr) (hg : ground 0 u = true) :
    ∀ (t : expr) (d : Nat),
      instAux [u] d t = lower_free_vars (subst_free t d u) (d + 1) 1 := by
  have hlift1 : lift_free_vars u 0 1 = u := lift_free_vars_ground u 0 0 1 hg (Nat.le_refl 0)
  have hmvar : ∀ (y : expr), isMvarNode y = true → ∀ d,
      instAux [u] d y = lower_free_vars (subst_free y d u) (d + 1) 1 := by
    intro y hy d
    rw [instAux_mvar [u] d y hy, subst_free_mvar y hy,
      lower_free_vars_mvar _ (isMvarNode_add_subst y d u)]
    simp [addSubsts, hlift1]
  intro t
  induction t with
  | var i =>
      intro d
      rcases Nat.lt_trichotomy i d with h | h | h
      · have h1 : i ≠ d := by omega
        have h2 : ¬ d + 1 ≤ i := by omega
        simp [instAux, h, subst_free, h1, lower_free_vars, h2]
      · subst h
        have h1 : lift_free_vars u 0 i = u := lift_free_vars_ground u 0 0 i hg (Nat.le_refl 0)
        have h2 : lower_free_vars u (i + 1) 1 = u :=
          lower_free_vars_ground u 0 (i + 1) 1 hg (Nat.zero_le _)
        simp [instAux, subst_free, lower_free_vars, h1, h2]
      · have h0 : ¬ i < d := by omega
        have h1 : ¬ i - d < 1 := by omega
        have h2 : i ≠ d := by omega
        have h3 : d + 1 ≤ i := by omega
        simp [instAux, h0, h1, subst_free, h2, lower_free_vars, h3]
  | cnst c => intro d; simp [instAux, subst_free, lower_free_vars]
  | app f a ihf iha => intro d; simp [instAux, subst_free, lower_free_vars, ihf d, iha d]
  | bind bp nm ty bo ihty ihbo =>
      intro d
      simp [instAux, subst_free, lower_free_vars, hlift1, ihty d, ihbo (d + 1)]
  | meta id => intro d; exact hmvar (meta id) rfl d
  | mlower s n m _ => intro d; exact hmvar (mlower s n m) rfl d
  | mlift s n m _ => intro d; exact hmvar (mlift s n m) rfl d
  | msubst p v m _ _ => intro d; exact hmvar (msubst p v m) rfl d

/-- A node whose root metavariable is unassigned is left untouched by
`instantiate_metavars`, pending operations included. -/
theorem instantiate_metavars_root_unassigned (e : metavar_env) :
    ∀ (t : expr) (id : Nat), mroot t = some id → e.asn.lookup id = none →
      instantiate_metavars e t = t := by
  intro t id hroot hnone
  cases t with
  | var i => simp [mroot] at hroot
  | cnst c => simp [mroot] at hroot
  | app f a => simp [mroot] at hroot
  | bind bp nm ty bo => simp [mroot] at hroot
  | meta i =>
      simp [mroot] at hroot
      subst hroot
      simp [instantiate_metavars, hnone]
  | mlower s n m =>
      simp only [mroot] at hroot
      simp [instantiate_metavars, rootAssigned, hroot, hnone]
  | mlift s n m =>
      simp only [mroot] at hroot
      simp [instantiate_metavars, rootAssigned, hroot, hnone]
  | msubst p v m =>
      simp only [mroot] at hroot
      simp [instantiate_metavars, rootAssigned, hroot, hnone]

/-- The commutation of the two drivers on an operation-wrapped node whose
root metavariable is unassigned: both orders leave the node symbolic. -/
theorem commute_wrapper (e : metavar_env) (u : expr) (y : expr)
    (hy : isMvarNode y = true) (id : Nat) (hroot : mroot y = some id)
    (hnone : e.asn.lookup id = none) (d : Nat) :
    instAux [u] d (instantiate_metavars e y) = instantiate_metavars e (instAux [u] d y) := by
  rw [instantiate_metavars_root_unassigned e y id hroot hnone, instAux_mvar [u] d y hy]
  refine (instantiate_metavars_root_unassigned e _ id ?_ hnone).symm
  rw [mroot_add_lower]
  simp only [addSubsts, List.length_cons, List.length_nil]
  rw [mroot_add_subst]
  exact hroot

end Metavar

namespace Metavar

open expr

/-- Depth-generalised commutation of the two instantiation drivers for a
single closed metavariable-free value, on terms whose assigned
metavariables carry no pending operations. -/
theorem instAux_imv_commute (e : metavar_env) (u : expr) (hg : ground 0 u = true) :
    ∀ (t : expr), assignedMetavarsBare e t = true →
      ∀ (d : Nat),
        instAux [u] d (instantiate_metavars e t) =
          instantiate_metavars e (instAux [u] d t) := by
  have hlift1 : lift_free_vars u 0 1 = u := lift_free_vars_ground u 0 0 1 hg (Nat.le_refl 0)
  have himvu : instantiate_metavars e u = u := instantiate_metavars_ground e u 0 hg
  intro t
  induction t with
  | var i =>
      intro _ d
      rcases Nat.lt_trichotomy i d with h | h | h
      · simp [instantiate_metavars, instAux, h]
      · subst h
        have h1 : lift_free_vars u 0 i = u := lift_free_vars_ground u 0 0 i hg (Nat.le_refl 0)
        simp [instantiate_metavars, instAux, h1, himvu]
      · have h0 : ¬ i < d := by omega
        have h1 : ¬ i - d < 1 := by omega
        simp [instantiate_metavars, instAux, h0, h1]
  | cnst c => intro _ d; simp [instantiate_metavars, instAux]
  | app f a ihf iha =>
      intro hb d
      simp only [assignedMetavarsBare, Bool.and_eq_true] at hb
      simp [instantiate_metavars, instAux, ihf hb.1 d, iha hb.2 d]
  | bind bp nm ty bo ihty ihbo =>
      intro hb d
      simp only [assignedMetavarsBare, Bool.and_eq_true] at hb
      simp [instantiate_metavars, instAux, ihty hb.1 d, ihbo hb.2 (d + 1)]
  | meta id =>
      intro _ d
      cases hl : e.asn.lookup id with
      | some v =>
          have hinst : instAux [u] d (meta id) =
              mlower (d + 1) 1 (msubst d u (meta id)) := by
            rw [instAux_mvar [u] d (meta id) rfl]
            simp [addSubsts, hlift1, add_subst, add_lower]
          calc instAux [u] d (instantiate_metavars e (meta id))
              = instAux [u] d v := by simp [instantiate_metavars, hl]
            _ = lower_free_vars (subst_free v d u) (d + 1) 1 := instAux_ground_val u hg v d
            _ = instantiate_metavars e (instAux [u] d (meta id)) := by
                rw [hinst]
                simp [instantiate_metavars, rootAssigned, mroot, hl, himvu]
      | none =>
          exact commute_wrapper e u (meta id) rfl id (by simp [mroot]) hl d
  | mlower s n m _ =>
      intro hb d
      simp only [assignedMetavarsBare] at hb
      cases hr : mroot m with
      | none => simp [rootUnassignedNode, hr] at hb
      | some id =>
          rw [rootUnassignedNode, hr] at hb
          simp only [Option.isNone_iff_eq_none] at hb
          exact commute_wrapper e u (mlower s n m) rfl id (by simp [mroot, hr]) hb d
  | mlift s n m _ =>
      intro hb d
      simp only [assignedMetavarsBare] at hb
      cases hr : mroot m with
      | none => simp [rootUnassignedNode, hr] at hb
      | some id =>
          rw [rootUnassignedNode, hr] at hb
          simp only [Option.isNone_iff_eq_none] at hb
          exact commute_wrapper e u (mlift s n m) rfl id (by simp [mroot, hr]) hb d
  | msubst p v m _ _ =>
      intro hb d
      simp only [assignedMetavarsBare] at hb
      cases hr : mroot m with
      | none => simp [rootUnassignedNode, hr] at hb
      | some id =>
          rw [rootUnassignedNode, hr] at hb
          simp only [Option.isNone_iff_eq_none] at hb
          exact commute_wrapper e u (msubst p v m) rfl id (by simp [mroot, hr]) hb d

end Metavar

namespace Metavar

open expr

/-- C2 (counterexample): the two instantiation drivers do not commute for
arbitrary `t`, `env` and `u` (no metavariable is re-assigned anywhere in
the process): with `t = Var(0)`, `u = m1` and `m1` assigned `a`,
`instantiate(instantiate_metavars(t, env), u)` leaves the metavariable
symbolic while `instantiate_metavars(instantiate(t, u), env)` resolves it
to `a`. -/
theorem c2_drivers_commute_counterexample :
    instantiate (instantiate_metavars (⟨1, [(0, aC)], []⟩ : metavar_env) (var 0)) [meta 0] ≠
      instantiate_metavars (⟨1, [(0, aC)], []⟩ : metavar_env)
        (instantiate (var 0) [meta 0]) := by
  decide

/-- C2 (amended): the two instantiation drivers commute,
`instantiate(instantiate_metavars(t, env), u) =
instantiate_metavars(instantiate(t, u), env)`, provided the substituted
value `u` is closed and metavariable-free and every metavariable of `t`
that is assigned in `env` occurs bare (its pending-operation chains sit
only on metavariables unassigned in `env`); no metavariable assigned during
the process is re-assigned, the drivers never assign. -/
theorem c2_drivers_commute (e : metavar_env) (u t : expr)
    (hu : ground 0 u = true) (ht : assignedMetavarsBare e t = true) :
    instantiate (instantiate_metavars e t) [u] =
      instantiate_metavars e (instantiate t [u]) :=
  instAux_imv_commute e u hu t ht 0

/-- C2 (witness): the amended commutation at the concrete instance of
`tst3` (`t` the body of `F = Fun x:T, f(m1, x)`, `m1 := h(Var(0), Var(2))`,
`u = g(a)`). -/
theorem c2_drivers_commute_witness :
    ground 0 (app gC aC) = true ∧
    assignedMetavarsBare env3 (ap2 fC (meta 0) (var 0)) = true ∧
    instantiate (instantiate_metavars env3 (ap2 fC (meta 0) (var 0))) [app gC aC] =
      instantiate_metavars env3 (instantiate (ap2 fC (meta 0) (var 0)) [app gC aC]) :=
  ⟨by decide, by decide,
   c2_drivers_commute env3 (app gC aC) (ap2 fC (meta 0) (var 0)) (by decide) (by decide)⟩

end Metavar

namespace Fmt

/-- C10: for every width `w` and format `f`, the list returned by
`format::best(w, 0, f)` contains only nodes of kind `NIL`, `LINE`, `TEXT`,
`COLOR_BEGIN` or `COLOR_END` — never `NEST`, `CHOICE` or `COMPOSE` — so the
`lean_unreachable` branch of `layout` is never reached when `pretty` prints
the result of `best` via `layout_list`. -/
theorem c10_best_emits_layout_atoms (w : Nat) (f : fmt) :
    ((fmt.best w 0 f).all fmt.isLayoutAtom) = true :=
  fmt.be_all_atoms w 0 [((0 : Int), f)] []

end Fmt
